import Mathlib

/-!
Verification of the filing-analysis pipeline of the Job-intelligence-bureau
repository (src/sec_client.py and src/forensic_modules.py), as a shallow
embedding in Lean 4.

Strings are modelled as Lean `String`/`List Char`; Python numbers as `ℚ`/`ℤ`;
Python `dict`s as association lists (with the source's lookup discipline);
fallible operations as `Option`.  Python's `str.lower`, `str.strip` and the
regex character classes `\s` and `\w` are modelled at the ASCII level (the
repository only processes ASCII filing text); `round(x, n)` is modelled as
exact half-to-even decimal rounding on `ℚ`.  Python `set` iteration order is
unspecified, so wherever the source iterates over a set to build a list, the
embedding represents the set as a canonically ordered duplicate-free list (a
fixed determinization).
-/

namespace JIB

/-! ## Character model (ASCII fragment of Python's `\s`, `\w`, `str.lower`) -/

/-- Python whitespace (`\s`, `str.strip`): space, tab, newline, carriage
return, vertical tab, form feed. -/
def isPySpace (c : Char) : Bool :=
  c.toNat == 32 || c.toNat == 9 || c.toNat == 10 || c.toNat == 13 ||
  c.toNat == 11 || c.toNat == 12

/-- Regex `\w` (word character), ASCII fragment: letters, digits, underscore. -/
def isWordChar (c : Char) : Bool :=
  decide (65 ≤ c.toNat ∧ c.toNat ≤ 90) || decide (97 ≤ c.toNat ∧ c.toNat ≤ 122) ||
  decide (48 ≤ c.toNat ∧ c.toNat ≤ 57) || c.toNat == 95

/-- The whitelist of `re.sub(r'[^\w\s.,;:\'\"-]', '', text)` in
`_normalize_text`: word characters, whitespace, and `. , ; : ' " -`
(codes 46 44 59 58 39 34 45). -/
def allowedChar (c : Char) : Bool :=
  isWordChar c || isPySpace c || c.toNat == 46 || c.toNat == 44 ||
  c.toNat == 59 || c.toNat == 58 || c.toNat == 39 || c.toNat == 34 ||
  c.toNat == 45

/-- Python `str.lower`, ASCII fragment: map `A`-`Z` to `a`-`z`. -/
def pyLower (c : Char) : Char :=
  if 65 ≤ c.toNat ∧ c.toNat ≤ 90 then Char.ofNat (c.toNat + 32) else c

/-- Python `str.upper`, ASCII fragment: map `a`-`z` to `A`-`Z`. -/
def pyUpper (c : Char) : Char :=
  if 97 ≤ c.toNat ∧ c.toNat ≤ 122 then Char.ofNat (c.toNat - 32) else c

/-! ## `re.sub(r'\s+', ' ', text)`, `str.strip`, and `_normalize_text`
(src/forensic_modules.py lines 73-77) -/

/-- Worker for `collapseWS`: the flag records whether the previous character
was whitespace (i.e. we are inside a run that has already emitted `' '`). -/
def collapseAux : Bool → List Char → List Char
  | _, [] => []
  | inSpace, c :: cs =>
    if isPySpace c then
      if inSpace then collapseAux true cs else ' ' :: collapseAux true cs
    else c :: collapseAux false cs

/-- The `re.sub(r'\s+', ' ', text)`: replace each maximal whitespace run by a
single space. -/
def collapseWS (l : List Char) : List Char := collapseAux false l

/-- Python `str.strip()`: remove leading and trailing whitespace. -/
def pyStripList (l : List Char) : List Char :=
  ((l.dropWhile isPySpace).reverse.dropWhile isPySpace).reverse

/-- The `_normalize_text`, list level: collapse whitespace runs, delete characters
outside the whitelist, lowercase, strip. -/
def normalizeList (l : List Char) : List Char :=
  pyStripList (((collapseWS l).filter allowedChar).map pyLower)

/-- The `_normalize_text(text)` (src/forensic_modules.py lines 73-77). -/
def normalize_text (s : String) : String := (normalizeList s.toList).asString

/-! ### Structure of whitespace-collapsed text -/

/-- No two adjacent whitespace characters. -/
def NoTwoSpace (a b : Char) : Prop := isPySpace a = true → isPySpace b = true → False

/-- A list is in the image of `collapseWS`: every whitespace character is a
plain space and no two whitespace characters are adjacent. -/
def Collapsed (l : List Char) : Prop :=
  (∀ c ∈ l, isPySpace c = true → c = ' ') ∧ l.Chain' NoTwoSpace

/-! ## `_split_sentences` and `analyze_textual_changes`
(src/forensic_modules.py lines 17-81) -/

/-- Sentence-terminating characters of `re.split(r'[.!?]+', text)`:
`.` `!` `?` (codes 46, 33, 63). -/
def isSentBreak (c : Char) : Bool :=
  c.toNat == 46 || c.toNat == 33 || c.toNat == 63

/-- The `re.split` on a run `p+` of separator characters: the (possibly empty)
fields between maximal separator runs. -/
def splitRuns (p : Char → Bool) : List Char → List (List Char)
  | [] => [[]]
  | [c] => if p c then [[], []] else [[c]]
  | c :: c2 :: cs =>
    if p c then
      if p c2 then splitRuns p (c2 :: cs)
      else [] :: splitRuns p (c2 :: cs)
    else
      match splitRuns p (c2 :: cs) with
      | [] => [[c]]
      | f :: rest => (c :: f) :: rest

/-- The `_split_sentences(text)` (src/forensic_modules.py lines 79-81): split on
runs of `.!?`, strip each piece, keep those longer than 20 characters. -/
def split_sentences (s : String) : List String :=
  (((splitRuns isSentBreak s.toList).map pyStripList).filter
    (fun piece => decide (20 < piece.length))).map List.asString

/-- The `risk_keywords` list of `analyze_textual_changes`
(src/forensic_modules.py lines 35-37), in source order. -/
def risk_keywords : List String :=
  ["going concern", "substantial doubt", "material weakness",
   "liquidity risk", "default", "bankruptcy", "impairment",
   "restructuring", "layoffs", "workforce reduction"]

/-- Does `needle` start `hay`? -/
def startsWithL : List Char → List Char → Bool
  | [], _ => true
  | _ :: _, [] => false
  | n :: ns, h :: hs => n == h && startsWithL ns hs

/-- Python's `needle in hay` substring test. -/
def containsSub (needle : List Char) : List Char → Bool
  | [] => needle.isEmpty
  | c :: t => startsWithL needle (c :: t) || containsSub needle t

/-- The first keyword of `risk_keywords` contained in `sentence.lower()`
(the inner `for keyword ... break` loop of `analyze_textual_changes`). -/
def first_risk_keyword (sentence : String) : Option String :=
  risk_keywords.find? (fun k => containsSub k.toList (sentence.toList.map pyLower))

/-- One entry of the `escalations` / `silent_deletions` lists:
`{"keyword": keyword, "text": sentence[:200]}`. -/
structure Escalation where
  keyword : String
  text : String
deriving DecidableEq

/-- The escalation list built by scanning a set of sentences: one entry per
sentence containing a risk keyword, with the first matching keyword and the
sentence truncated to 200 characters (`{"keyword": keyword, "text":
sentence[:200]}`).  Python iterates the `set` in unspecified order; the
embedding represents each set as a first-occurrence-deduplicated list and
iterates in that order. -/
def escalation_entries (sentences : List String) : List Escalation :=
  sentences.filterMap
    (fun s => (first_risk_keyword s).map (fun k => ⟨k, s.take 200⟩))

/-- The sentence set of a raw text: normalize, split, deduplicate
(`set(_split_sentences(...))`). -/
def sentence_set (t : String) : Finset String :=
  (split_sentences (normalize_text t)).toFinset

/-- Result dictionary of `analyze_textual_changes`. -/
structure RedlineResult where
  added_count : Nat
  removed_count : Nat
  escalations : List Escalation
  silent_deletions : List Escalation
  diff_preview : String
  risk_score : Nat
deriving DecidableEq

/-- The `difflib.unified_diff` preview of `analyze_textual_changes`,
specialized to its actual inputs: normalized texts never contain a newline,
so each side is a single line and the diff is empty (equal inputs) or one
replacement hunk, truncated to 3000 characters.  Display-only. -/
def unified_diff_preview (previous current : String) : String :=
  if previous = current then ""
  else ("--- Previous Period\n+++ Current Period\n@@ -1 +1 @@\n-" ++ previous ++
        "\n+" ++ current).take 3000

/-- The `analyze_textual_changes(current_text, previous_text)`
(src/forensic_modules.py lines 17-71).  The Python `set`s of sentences are
modelled as first-occurrence-deduplicated lists, and the set differences as
filters over them; counts and contents agree with the set semantics. -/
def analyze_textual_changes (current_text previous_text : String) : RedlineResult :=
  let current := normalize_text current_text
  let previous := normalize_text previous_text
  let curr_sentences := (split_sentences current).dedup
  let prev_sentences := (split_sentences previous).dedup
  let added := curr_sentences.filter (fun s => decide (s ∉ prev_sentences))
  let removed := prev_sentences.filter (fun s => decide (s ∉ curr_sentences))
  let escalations := escalation_entries added
  let silent_deletions := escalation_entries removed
  { added_count := added.length
    removed_count := removed.length
    escalations := escalations.take 10
    silent_deletions := silent_deletions.take 10
    diff_preview := unified_diff_preview previous current
    risk_score := escalations.length * 2 + silent_deletions.length }

/-- The example sentence of the spec: it contains both the keyword
`"substantial doubt"` and the keyword `"going concern"`. -/
def goingConcernSentence : String :=
  "the company disclosed substantial doubt about its ability to continue as a going concern this quarter"

/-! ## Module B: `analyze_financials` (src/forensic_modules.py lines 88-185) -/

/-- Python `round(x)`: round half to even, modelled exactly on `ℚ` (the
source rounds IEEE doubles; the claims only exercise exactly representable
values). -/
def pyRoundInt (q : ℚ) : ℤ :=
  let f := ⌊q⌋
  if q - f < 1/2 then f
  else if 1/2 < q - f then f + 1
  else if f % 2 = 0 then f else f + 1

/-- Python `round(x, d)`: round half to even at `d` decimal digits. -/
def pyRound (d : ℕ) (q : ℚ) : ℚ := (pyRoundInt (q * 10 ^ d) : ℚ) / 10 ^ d

/-- Lexicographic code-point comparison of character lists (Python string
`<`). -/
def listLtChar : List Char → List Char → Bool
  | [], [] => false
  | [], _ :: _ => true
  | _ :: _, [] => false
  | a :: as, b :: bs =>
    if a.toNat < b.toNat then true
    else if b.toNat < a.toNat then false
    else listLtChar as bs

/-- Python string `<=` (code-point lexicographic). -/
def strLe (a b : String) : Bool := !(listLtChar b.toList a.toList)

/-- One `{"end": ..., "val": ...}` entry of a unit list in the XBRL facts
record; a field is `none` when the key is absent. -/
structure FactEntry where
  end_ : String
  val : Option ℚ
deriving DecidableEq

/-- One concept of the `us-gaap` facts dictionary: its `units` mapping from
unit kind to entry list. -/
structure Fact where
  units : List (String × List FactEntry)
deriving DecidableEq

/-- The `sorted(values, key=lambda x: x.get("end", ""), reverse=True)`: stable
descending sort by the period-end string (insertion sort is stable, matching
Python's stable sort). -/
def sortByEndDesc (values : List FactEntry) : List FactEntry :=
  values.insertionSort (fun a b => strLe b.end_ a.end_ = true)

/-- The unit-kind priority loop `for unit_type in ["USD", "shares", "pure"]`
shared by `_get_latest_fact` and `_get_fact_history`: the first unit kind
present with a nonempty value list. -/
def pick_unit (units : List (String × List FactEntry)) : List String → Option (List FactEntry)
  | [] => none
  | u :: us =>
    match units.lookup u with
    | some values => if values.isEmpty then pick_unit units us else some values
    | none => pick_unit units us

/-- The concept's `units` dictionary (`us_gaap.get(concept, {}).get("units", {})`). -/
def concept_units (us_gaap : List (String × Fact)) (concept : String) :
    List (String × List FactEntry) :=
  match us_gaap.lookup concept with
  | some f => f.units
  | none => []

/-- The `_get_latest_fact(us_gaap, concept)` (src/forensic_modules.py lines
145-157): the value with the lexicographically latest period end, in the
first available unit kind. -/
def get_latest_fact (us_gaap : List (String × Fact)) (concept : String) : Option ℚ :=
  match pick_unit (concept_units us_gaap concept) ["USD", "shares", "pure"] with
  | some values =>
    match (sortByEndDesc values).head? with
    | some e => e.val
    | none => none
  | none => none

/-- The `_get_fact_history(us_gaap, concept, count)` (src/forensic_modules.py
lines 159-170): the `count` most recent entries, keeping only truthy
(present and nonzero) values. -/
def get_fact_history (us_gaap : List (String × Fact)) (concept : String)
    (count : Nat) : List ℚ :=
  match pick_unit (concept_units us_gaap concept) ["USD", "shares", "pure"] with
  | some values =>
    ((sortByEndDesc values).take count).filterMap
      (fun e => match e.val with
        | some v => if v ≠ 0 then some v else none
        | none => none)
  | none => []

/-- Thousands grouping of a digit list given in reverse order. -/
def commaAux : List Char → Nat → List Char
  | [], _ => []
  | c :: cs, k =>
    if k ≠ 0 ∧ k % 3 = 0 then ',' :: c :: commaAux cs (k + 1)
    else c :: commaAux cs (k + 1)

/-- An integer with thousands separators (the `,` of `f"${val:,.0f}"`). -/
def intCommaGrouped (n : ℤ) : String :=
  let ds := (toString n.natAbs).toList
  let grouped := ((commaAux ds.reverse 0).reverse).asString
  if n < 0 then "-" ++ grouped else grouped

/-- The `f"{q:.1f}"`: one decimal digit, display-only model. -/
def fmtOneDecimal (q : ℚ) : String :=
  let n := pyRoundInt (q * 10)
  let sign := if n < 0 then "-" else ""
  let m := n.natAbs
  sign ++ toString (m / 10) ++ "." ++ toString (m % 10)

/-- Python `str` of a float holding at most two decimal digits, display-only
model (used for the `{liquidity_ratio}` interpolation). -/
def ratDisplay (q : ℚ) : String :=
  let scaled := pyRoundInt (q * 100)
  let sign := if scaled < 0 then "-" else ""
  let m := scaled.natAbs
  let ip := m / 100
  let fp := m % 100
  if fp = 0 then sign ++ toString ip ++ ".0"
  else if fp % 10 = 0 then sign ++ toString ip ++ "." ++ toString (fp / 10)
  else sign ++ toString ip ++ "." ++ (if fp < 10 then "0" else "") ++ toString fp

/-- The `_format_number(val)` (src/forensic_modules.py lines 172-185). -/
def format_number (val : Option ℚ) : String :=
  match val with
  | none => "N/A"
  | some v =>
    if 1000000000 ≤ |v| then "$" ++ fmtOneDecimal (v / 1000000000) ++ "B"
    else if 1000000 ≤ |v| then "$" ++ fmtOneDecimal (v / 1000000) ++ "M"
    else "$" ++ intCommaGrouped (pyRoundInt v)

/-- One alert dictionary of `analyze_financials`. -/
structure FinAlert where
  type_ : String
  severity : String
  message : String
deriving DecidableEq

/-- The result dictionary of `analyze_financials` in the non-error case. -/
structure FinAudit where
  current_assets : String
  current_liabilities : String
  cash : String
  total_debt : String
  total_assets : String
  liquidity_ratio : Option ℚ
  cash_change_pct : Option ℚ
  alerts : List FinAlert
  health_score : ℤ
deriving DecidableEq

/-- The `analyze_financials` returns either `{"error": ...}` (falsy input) or the
audit dictionary. -/
inductive FinResult where
  | error (msg : String)
  | ok (audit : FinAudit)
deriving DecidableEq

/-- The XBRL company-facts record: `facts.<taxonomy>.<concept>`. -/
structure CompanyFacts where
  facts : List (String × List (String × Fact))
deriving DecidableEq

/-- The `analyze_financials(company_facts, cik)` (src/forensic_modules.py lines
88-143).  The `company_facts` argument is `none` for Python-falsy input
(`None` or an empty dict). -/
def analyze_financials (company_facts : Option CompanyFacts) (_cik : String) : FinResult :=
  match company_facts with
  | none => .error "No XBRL data available"
  | some cf =>
    let us_gaap := (cf.facts.lookup "us-gaap").getD []
    let current_assets := get_latest_fact us_gaap "AssetsCurrent"
    let current_liabilities := get_latest_fact us_gaap "LiabilitiesCurrent"
    let cash := get_latest_fact us_gaap "CashAndCashEquivalentsAtCarryingValue"
    let total_debt := get_latest_fact us_gaap "LongTermDebt"
    let total_assets := get_latest_fact us_gaap "Assets"
    let cash_history := get_fact_history us_gaap "CashAndCashEquivalentsAtCarryingValue" 2
    let liquidity_ratio : Option ℚ :=
      match current_assets, current_liabilities with
      | some ca, some cl =>
        if ca ≠ 0 ∧ cl ≠ 0 ∧ 0 < cl then some (pyRound 2 (ca / cl)) else none
      | _, _ => none
    let liquidity_alerts : List FinAlert :=
      match liquidity_ratio with
      | some r =>
        if r < 1 then
          [⟨"LIQUIDITY_ALERT", "HIGH",
            "Current Ratio " ++ ratDisplay r ++
              " < 1.0 - May struggle to meet short-term obligations"⟩]
        else []
      | none => []
    let cash_change_pct : Option ℚ :=
      if 2 ≤ cash_history.length ∧ 0 < cash_history.getD 1 0 then
        some (pyRound 1
          ((cash_history.getD 0 0 - cash_history.getD 1 0) / cash_history.getD 1 0 * 100))
      else none
    let cash_alerts : List FinAlert :=
      match cash_change_pct with
      | some p =>
        if p < -30 then
          [⟨"CASH_BURN_ALERT", "HIGH",
            "Cash dropped " ++ fmtOneDecimal |p| ++ "% QoQ - Significant cash burn"⟩]
        else []
      | none => []
    let alerts := liquidity_alerts ++ cash_alerts
    .ok {
      current_assets := format_number current_assets
      current_liabilities := format_number current_liabilities
      cash := format_number cash
      total_debt := format_number total_debt
      total_assets := format_number total_assets
      liquidity_ratio := liquidity_ratio
      cash_change_pct := cash_change_pct
      alerts := alerts
      health_score := 10 - (alerts.length : ℤ) * 3 }

/-- The `health_score = 10 - 3 * |alerts|` holds of every non-error audit result. -/
def health_invariant : FinResult → Prop
  | .ok a => a.health_score = 10 - 3 * (a.alerts.length : ℤ)
  | .error _ => True

/-- The C7 fact set: a cash-and-equivalents concept whose USD entries are 100
(period ending 2024-06-30) and 70 (period ending 2024-09-30), so the history
newest-first is `[70, 100]`. -/
def factSetC7 : CompanyFacts :=
  ⟨[("us-gaap",
     [("CashAndCashEquivalentsAtCarryingValue",
       ⟨[("USD", [⟨"2024-06-30", some 100⟩, ⟨"2024-09-30", some 70⟩])]⟩)])]⟩

/-- The audit produced for `factSetC7`. -/
def auditC7 : FinAudit :=
  { current_assets := "N/A", current_liabilities := "N/A", cash := "$70",
    total_debt := "N/A", total_assets := "N/A",
    liquidity_ratio := none, cash_change_pct := some (-30),
    alerts := [], health_score := 10 }

/-- The C8 fact set: `AssetsCurrent` latest 80, `LiabilitiesCurrent` latest
100. -/
def factSetC8 : CompanyFacts :=
  ⟨[("us-gaap",
     [("AssetsCurrent", ⟨[("USD", [⟨"2024-09-30", some 80⟩])]⟩),
      ("LiabilitiesCurrent", ⟨[("USD", [⟨"2024-09-30", some 100⟩])]⟩)])]⟩

/-- The audit produced for `factSetC8`. -/
def auditC8 : FinAudit :=
  { current_assets := "$80", current_liabilities := "$100", cash := "N/A",
    total_debt := "N/A", total_assets := "N/A",
    liquidity_ratio := some (4/5), cash_change_pct := none,
    alerts := [⟨"LIQUIDITY_ALERT", "HIGH",
      "Current Ratio 0.8 < 1.0 - May struggle to meet short-term obligations"⟩],
    health_score := 7 }

/-! ## Module C: `analyze_whale_changes` (src/forensic_modules.py lines
228-291) -/

/-- One holdings dictionary.  A field is `none` when the key is absent (the
embedding conflates an absent key with an explicit `None` value; the parser
only ever stores present, non-`None` values). -/
structure Holding where
  issuer : Option String
  cls : Option String
  cusip : Option String
  value : Option ℤ
  shares : Option ℤ
deriving DecidableEq

/-- One entry of the `changes` list of `analyze_whale_changes`. -/
structure WhaleChange where
  issuer : String
  cusip : String
  current_shares : ℤ
  previous_shares : ℤ
  delta : ℤ
  delta_pct : ℚ
  current_value : ℤ
  action : String
deriving DecidableEq

/-- The result dictionary of `analyze_whale_changes` in the non-error case. -/
structure WhaleStats where
  total_positions : Nat
  changes_count : Nat
  top_buys : List WhaleChange
  top_sells : List WhaleChange
  new_positions : List WhaleChange
  exits : List WhaleChange
  net_conviction : ℤ
  conviction_signal : String
deriving DecidableEq

/-- The `analyze_whale_changes` returns either `{"error": ...}` or the stats
dictionary. -/
inductive WhaleResult where
  | error (msg : String)
  | ok (stats : WhaleStats)
deriving DecidableEq

/-- Is the result the non-error case? -/
def WhaleResult.isOk : WhaleResult → Bool
  | .ok _ => true
  | .error _ => false

/-- Python truthiness of an optional string: present and nonempty. -/
def truthyStr : Option String → Bool
  | some s => !s.isEmpty
  | none => false

/-- The CUSIP-indexed dictionary `{h.get('cusip', ''): h for h in holdings if
h.get('cusip')}`: among entries with a truthy CUSIP equal to `k`, the last
wins (dict-comprehension overwrite semantics). -/
def cusip_index (hs : List Holding) (k : String) : Option Holding :=
  ((hs.filter (fun h => truthyStr h.cusip)).filter (fun h => h.cusip == some k)).getLast?

/-- The distinct truthy CUSIP keys of a holdings list, in first-occurrence
order. -/
def cusip_keys (hs : List Holding) : List String :=
  ((hs.filter (fun h => truthyStr h.cusip)).filterMap (fun h => h.cusip)).dedup

/-- The `all_cusips = set(current_map) | set(previous_map)`; Python set iteration
order is unspecified, so the embedding iterates in first-occurrence order. -/
def all_cusips (cur prev : List Holding) : List String :=
  (cusip_keys cur ++ cusip_keys prev).dedup

/-- The loop body of `analyze_whale_changes` for one CUSIP: `none` when the
share delta is zero (such CUSIPs are skipped). -/
def whale_change_at (cur prev : List Holding) (k : String) : Option WhaleChange :=
  let c := cusip_index cur k
  let p := cusip_index prev k
  let curr_shares : ℤ := match c with | some h => h.shares.getD 0 | none => 0
  let prev_shares : ℤ := match p with | some h => h.shares.getD 0 | none => 0
  let delta := curr_shares - prev_shares
  let prev_issuer : String := match p with
    | some h => h.issuer.getD "Unknown"
    | none => "Unknown"
  let issuer : String := match (match c with | some h => h.issuer | none => none) with
    | some s => if s.isEmpty then prev_issuer else s
    | none => prev_issuer
  if delta ≠ 0 then
    some { issuer := issuer
           cusip := k
           current_shares := curr_shares
           previous_shares := prev_shares
           delta := delta
           delta_pct := if prev_shares ≠ 0 then pyRound 1 ((delta : ℚ) / (prev_shares : ℚ) * 100)
                        else 100
           current_value := match c with | some h => h.value.getD 0 | none => 0
           action := if delta > 0 then "BUY" else "SELL" }
  else none

/-- The `analyze_whale_changes(current_holdings, previous_holdings)`
(src/forensic_modules.py lines 228-291). -/
def analyze_whale_changes (current_holdings previous_holdings : List Holding) :
    WhaleResult :=
  if current_holdings.isEmpty then .error "No current holdings data"
  else
    let changes_unsorted := (all_cusips current_holdings previous_holdings).filterMap
      (whale_change_at current_holdings previous_holdings)
    let total_bought := ((changes_unsorted.map (·.delta)).filter (fun d => decide (0 < d))).sum
    let total_sold :=
      (((changes_unsorted.map (·.delta)).filter (fun d => decide (d < 0))).map (fun d => |d|)).sum
    let changes := changes_unsorted.insertionSort (fun a b => |b.delta| ≤ |a.delta|)
    let new_positions := changes.filter (fun c => c.previous_shares == 0)
    let exits := changes.filter (fun c => c.current_shares == 0)
    let net_conviction := total_bought - total_sold
    .ok { total_positions := current_holdings.length
          changes_count := changes.length
          top_buys := (changes.filter (fun c => c.action == "BUY")).take 5
          top_sells := (changes.filter (fun c => c.action == "SELL")).take 5
          new_positions := new_positions.take 5
          exits := exits.take 5
          net_conviction := net_conviction
          conviction_signal :=
            if net_conviction > 0 then "BULLISH"
            else if net_conviction < 0 then "BEARISH" else "NEUTRAL" }

/-! ## `SECClient.get_cik` (src/sec_client.py lines 94-111) -/

/-- The curated `CIK_MAP` of `SECClient` (src/sec_client.py lines 15-29). -/
def CIK_MAP : List (String × String) :=
  [("AAPL", "320193"), ("MSFT", "789019"), ("GOOGL", "1652044"), ("AMZN", "1018724"),
   ("META", "1326801"), ("TSLA", "1318605"), ("NVDA", "1045810"), ("JPM", "19617"),
   ("V", "1403161"), ("JNJ", "200406"), ("WMT", "104169"), ("PG", "80424"),
   ("MA", "1141391"), ("UNH", "731766"), ("HD", "354950"), ("BAC", "70858"),
   ("XOM", "34088"), ("PFE", "78003"), ("ABBV", "1551152"), ("CVX", "93410"),
   ("KO", "21344"), ("PEP", "77476"), ("COST", "909832"), ("MRK", "310158"),
   ("AVGO", "1441634"), ("TMO", "97745"), ("CSCO", "858877"), ("MCD", "63908"),
   ("ABT", "1800"), ("DHR", "313616"), ("ACN", "1467373"), ("NKE", "320187"),
   ("LLY", "59478"), ("TXN", "97476"), ("ORCL", "1341439"), ("PM", "1413329"),
   ("NEE", "753308"), ("IBM", "51143"), ("QCOM", "804328"), ("HON", "773840"),
   ("INTC", "50863"), ("AMD", "2488"), ("CRM", "1108524"), ("NFLX", "1065280"),
   ("GM", "1467858"), ("F", "37996"), ("GS", "886982"), ("MS", "895421"),
   ("BRK-A", "1067983"), ("BRK-B", "1067983"), ("BRKB", "1067983")]

/-- The `ticker.upper().strip().replace(".", "-")`. -/
def normalize_ticker (t : String) : String :=
  ((pyStripList (t.toList.map pyUpper)).map
    (fun c => if c = '.' then '-' else c)).asString

/-- Python `str.zfill` on an unsigned digit string: left-pad with zeros to
`width`. -/
def zfill (width : Nat) (s : String) : String :=
  (List.replicate (width - s.length) '0').asString ++ s

/-- One record of the remote ticker directory
(`company_tickers.json` values). -/
structure TickerEntry where
  ticker : String
  cik_str : String
deriving DecidableEq

/-- The `SECClient.get_cik(ticker)` (src/sec_client.py lines 94-111).  The
`directory` argument models the outcome of the network fetch of the remote
ticker directory: `none` when the fetch fails, otherwise the decoded
records. -/
def get_cik (directory : Option (List TickerEntry)) (ticker : String) : Option String :=
  let t := normalize_ticker ticker
  match CIK_MAP.lookup t with
  | some c => some (zfill 10 c)
  | none =>
    match directory with
    | some entries =>
      match entries.find? (fun e => e.ticker == t) with
      | some e => some (zfill 10 e.cik_str)
      | none => none
    | none => none

/-! ## `SECClient.get_filings` (src/sec_client.py lines 318-401) -/

/-- A filing descriptor dictionary as built by every discovery strategy. -/
structure Filing where
  form : String
  accession : String
  accession_clean : String
  primary_doc : String
  date : String
  url : String
  folder_url : String
deriving DecidableEq

/-- One index of the parallel arrays `filings.recent.{form, accessionNumber,
primaryDocument, filingDate}` of the submissions record (index-aligned, as
the API guarantees). -/
structure SubEntry where
  form : String
  accessionNumber : String
  primaryDocument : String
  filingDate : String
deriving DecidableEq

/-- The outcomes of the external calls made by one `get_filings` invocation:
the local `data/{ticker}/filings.json` load, the HTML directory-page strategy
(`get_filings_via_html`), the RSS feed strategy (`get_filings_via_rss`), and
the submissions-API fetch (`get_submissions`).  `none` models a failed load
or fetch, an empty list a strategy that found nothing. -/
structure LocateEnv where
  localFilings : Option (List Filing)
  htmlFilings : List Filing
  rssFilings : List Filing
  submissions : Option (List SubEntry)
deriving DecidableEq

/-- Python `str.lstrip("0")`. -/
def pyLStripZeros (s : String) : String :=
  (s.toList.dropWhile (fun c => c == '0')).asString

/-- Python `str.replace("-", "")`. -/
def removeDashes (s : String) : String :=
  (s.toList.filter (fun c => !(c == '-'))).asString

/-- Python `s.startswith(pre)`. -/
def strStartsWith (s pre : String) : Bool := startsWithL pre.toList s.toList

/-- The two placeholder descriptors synthesized by `_get_demo_filings` for
form types `10-K` and `10-Q`, with the sentinel URL `DEMO`. -/
def demo_filing_pair (form_type : String) : List Filing :=
  [{ form := form_type
     accession := "0000320193-24-000123"
     accession_clean := "000032019324000123"
     primary_doc := "demo-" ++ (form_type.toList.map pyLower).asString ++ ".htm"
     date := "2024-11-01"
     url := "DEMO"
     folder_url := "DEMO" },
   { form := form_type
     accession := "0000320193-24-000100"
     accession_clean := "000032019324000100"
     primary_doc := "demo-" ++ (form_type.toList.map pyLower).asString ++ "-prev.htm"
     date := "2024-08-01"
     url := "DEMO"
     folder_url := "DEMO" }]

/-- The `SECClient._get_demo_filings(cik, form_type, count)` (src/sec_client.py
lines 375-401): the demo pair truncated to `count` for `10-K`/`10-Q`, the
empty list for every other form type.  (The source computes `cik_clean` but
never uses it.) -/
def get_demo_filings (cik form_type : String) (count : Nat) : List Filing :=
  let _cik_clean := pyLStripZeros cik
  if form_type == "10-K" || form_type == "10-Q" then
    (demo_filing_pair form_type).take count
  else []

/-- The submissions-API strategy body of `get_filings` (src/sec_client.py
lines 344-369): walk the parallel arrays, keep forms with the requested
prefix, build up to `count` descriptors. -/
def build_submissions_filings (subs : List SubEntry) (cik form_type : String)
    (count : Nat) : List Filing :=
  ((subs.filter (fun e => strStartsWith e.form form_type)).take count).map (fun e =>
    let acc := removeDashes e.accessionNumber
    let cik_clean := pyLStripZeros cik
    { form := e.form
      accession := e.accessionNumber
      accession_clean := acc
      primary_doc := e.primaryDocument
      date := e.filingDate
      url := "https://www.sec.gov/Archives/edgar/data/" ++ cik_clean ++ "/" ++ acc ++
             "/" ++ e.primaryDocument
      folder_url := "https://www.sec.gov/Archives/edgar/data/" ++ cik_clean ++ "/" ++
                    acc ++ "/" })

/-- Method 0 of `get_filings` (src/sec_client.py lines 321-328): when a truthy
ticker is supplied and the local filing list loads truthy, filter by exact
form type; a nonempty filtered list (truncated to `count`) is returned,
otherwise the cascade continues. -/
def local_filings_lookup (localData : Option (List Filing)) (form_type : String)
    (count : Nat) (ticker : Option String) : Option (List Filing) :=
  match ticker with
  | some t =>
    if t.isEmpty then none
    else
      match localData with
      | some ld =>
        if ld.isEmpty then none
        else
          let filtered := ld.filter (fun f => f.form == form_type)
          if filtered.isEmpty then none else some (filtered.take count)
      | none => none
  | none => none

/-- The `SECClient.get_filings(cik, form_type, count, ticker)` (src/sec_client.py
lines 318-373): local lookup, then HTML, then RSS, then submissions API, then
demo placeholders — stopping at the first strategy that yields a nonempty
list. -/
def get_filings (env : LocateEnv) (cik form_type : String) (count : Nat)
    (ticker : Option String) : List Filing :=
  match local_filings_lookup env.localFilings form_type count ticker with
  | some r => r
  | none =>
    if !env.htmlFilings.isEmpty then env.htmlFilings
    else if !env.rssFilings.isEmpty then env.rssFilings
    else
      match env.submissions with
      | some subs =>
        let filings := build_submissions_filings subs cik form_type count
        if !filings.isEmpty then filings else get_demo_filings cik form_type count
      | none => get_demo_filings cik form_type count

/-- Sample filing returned by the cached/local strategy in the witness. -/
def fLocal : Filing :=
  ⟨"10-K", "0000000000-24-000001", "000000000024000001", "local.htm",
   "2024-01-01", "u1", "v1"⟩

/-- Sample filing returned by the HTML strategy in the witness. -/
def fHtml : Filing :=
  ⟨"10-K", "0000000000-24-000002", "000000000024000002", "html.htm",
   "2024-02-01", "u2", "v2"⟩

/-- Sample filing returned by the RSS strategy in the witness. -/
def fRss : Filing :=
  ⟨"10-K", "0000000000-24-000003", "000000000024000003", "rss.htm",
   "2024-03-01", "u3", "v3"⟩

/-- Sample submissions-record entry in the witness. -/
def sampleSub : SubEntry :=
  ⟨"10-K", "0000320193-24-000123", "doc.htm", "2024-11-01"⟩

/-- Environment in which every strategy has data. -/
def envLocal : LocateEnv := ⟨some [fLocal], [fHtml], [fRss], some [sampleSub]⟩

/-- Environment in which the local strategy is skipped (no ticker data). -/
def envHtml : LocateEnv := ⟨none, [fHtml], [fRss], some [sampleSub]⟩

/-- Environment in which local and HTML fail. -/
def envRss : LocateEnv := ⟨none, [], [fRss], some [sampleSub]⟩

/-- Environment in which local, HTML and RSS fail. -/
def envSubs : LocateEnv := ⟨none, [], [], some [sampleSub]⟩

/-- Environment in which every remote strategy fails. -/
def envFail : LocateEnv := ⟨none, [], [], none⟩

/-! ## `extract_item_1a` (src/sec_client.py lines 453-475) -/

/-- Text nodes of a marked-up document: maximal character runs outside
`<...>` tags.  The flag records whether the scanner is inside a tag; the head
of the result is the node in progress. -/
def htmlNodesAux : Bool → List Char → List (List Char)
  | false, [] => [[]]
  | false, c :: cs =>
    if c = '<' then [] :: htmlNodesAux true cs
    else
      match htmlNodesAux false cs with
      | [] => [[c]]
      | n :: rest => (c :: n) :: rest
  | true, [] => [[]]
  | true, c :: cs =>
    if c = '>' then htmlNodesAux false cs
    else htmlNodesAux true cs

/-- Model of `BeautifulSoup(html).get_text(" ", strip=True)`: strip each text
node, drop the empty ones, join the rest with single spaces.  (Entity
decoding and the parser's recovery on malformed markup are not modelled; the
claims only exercise well-formed fragments.) -/
def get_text_model (l : List Char) : List Char :=
  List.intercalate [' ']
    (((htmlNodesAux false l).map pyStripList).filter (fun n => !n.isEmpty))

/-- Case-insensitive literal matcher: consume `k` (given lowercase or not)
from the head of the input, returning the rest. -/
def matchLit : List Char → List Char → Option (List Char)
  | [], rest => some rest
  | _ :: _, [] => none
  | k :: ks, c :: cs => if pyLower c = pyLower k then matchLit ks cs else none

/-- The `p+` (greedy one-or-more character class): requires one match and then
consumes the maximal run.  Faithful to the regexes used here because each
class is disjoint from the literal that follows it. -/
def munch1 (p : Char → Bool) : List Char → Option (List Char)
  | [] => none
  | c :: cs => if p c then some (cs.dropWhile p) else none

/-- The class `[\.\s]`. -/
def isDotOrSpace (c : Char) : Bool := c = '.' || isPySpace c

/-- The head of pattern 1, `Item\s+1A[\.\s]+Risk\s+Factors`
(case-insensitive). -/
def matchHeader1 (l : List Char) : Option (List Char) :=
  ((((((matchLit "item".toList l).bind (munch1 isPySpace)).bind
    (matchLit "1a".toList)).bind (munch1 isDotOrSpace)).bind
    (matchLit "risk".toList)).bind (munch1 isPySpace)).bind
    (matchLit "factors".toList)

/-- The terminator of pattern 1, `(?:Item\s+1B|Item\s+2[\.\s])`, tested at
the current position. -/
def isTerm1At (l : List Char) : Bool :=
  ((((matchLit "item".toList l).bind (munch1 isPySpace)).bind
    (matchLit "1b".toList)).isSome) ||
  (((((matchLit "item".toList l).bind (munch1 isPySpace)).bind
    (matchLit "2".toList)).bind
    (fun r => match r with
      | c :: cs => if isDotOrSpace c then some cs else none
      | [] => none)).isSome)

/-- The head of pattern 2, `ITEM\s+1A` (case-insensitive). -/
def matchHeader2 (l : List Char) : Option (List Char) :=
  ((matchLit "item".toList l).bind (munch1 isPySpace)).bind (matchLit "1a".toList)

/-- The terminator of pattern 2, `(?:ITEM\s+1B|ITEM\s+2)`. -/
def isTerm2At (l : List Char) : Bool :=
  ((((matchLit "item".toList l).bind (munch1 isPySpace)).bind
    (matchLit "1b".toList)).isSome) ||
  ((((matchLit "item".toList l).bind (munch1 isPySpace)).bind
    (matchLit "2".toList)).isSome)

/-- The lazy group `(.*?)`: the prefix of the input before the first position
where the terminator matches; `none` when the terminator never matches. -/
def capturePre (term : List Char → Bool) : List Char → Option (List Char)
  | [] => if term [] then some [] else none
  | c :: cs => if term (c :: cs) then some [] else (capturePre term cs).map (c :: ·)

/-- The `re.search` for `header(.*?)term`: at the leftmost position where the
header matches and a terminator follows, return the captured group. -/
def searchSection (header : List Char → Option (List Char))
    (term : List Char → Bool) : List Char → Option (List Char)
  | [] => none
  | c :: cs =>
    match header (c :: cs) with
    | some rest =>
      match capturePre term rest with
      | some grp => some grp
      | none => searchSection header term cs
    | none => searchSection header term cs

/-- The `if match and len(match.group(1)) > 500: return ...`: the captured group,
kept only when longer than `minLen`. -/
def section_capture (header : List Char → Option (List Char))
    (term : List Char → Bool) (minLen : Nat) (text : List Char) :
    Option (List Char) :=
  match searchSection header term text with
  | some g => if minLen < g.length then some g else none
  | none => none

/-- Python `hay.find(needle)` (as `Option` instead of `-1`). -/
def findSub (needle : List Char) : List Char → Option Nat
  | [] => if needle.isEmpty then some 0 else none
  | c :: t =>
    if startsWithL needle (c :: t) then some 0
    else (findSub needle t).map (· + 1)

/-- The branch cascade of `extract_item_1a` over the tag-stripped,
whitespace-collapsed text: pattern 1, pattern 2 (accepting only captures
longer than 500 characters, stripped and truncated to 25000), then 25000
characters from the first positive-index occurrence of `"risk factors"` in
the lowercased text, then the first 15000 characters unconditionally. -/
def extract_item_1a_list (text : List Char) : List Char :=
  match section_capture matchHeader1 isTerm1At 500 text with
  | some g => (pyStripList g).take 25000
  | none =>
    match section_capture matchHeader2 isTerm2At 500 text with
    | some g => (pyStripList g).take 25000
    | none =>
      match findSub "risk factors".toList (text.map pyLower) with
      | some idx =>
        if 0 < idx then (text.drop idx).take 25000 else text.take 15000
      | none => text.take 15000

/-- The `extract_item_1a(html)` (src/sec_client.py lines 453-475): strip markup
to plain text with single-space joins, collapse whitespace, then run the
branch cascade. -/
def extract_item_1a (html : String) : String :=
  (extract_item_1a_list (collapseWS (get_text_model html.toList))).asString

/-- A consumer that, on success, returns a suffix of its input. -/
def SuffixStep (f : List Char → Option (List Char)) : Prop :=
  ∀ ⦃l r : List Char⦄, f l = some r → r <:+ l

/-! ## Theorems -/

theorem toNat_ofNat_valid {n : Nat} (h : n < 55296) : (Char.ofNat n).toNat = n := by
  have hv : n.isValidChar := Or.inl h
  rw [Char.ofNat, dif_pos hv]
  simp [Char.ofNatAux, Char.toNat, UInt32.toNat]

theorem toNat_pyLower_of_upper {c : Char} (h1 : 65 ≤ c.toNat) (h2 : c.toNat ≤ 90) :
    (pyLower c).toNat = c.toNat + 32 := by
  rw [pyLower, if_pos ⟨h1, h2⟩]
  exact toNat_ofNat_valid (by omega)

theorem pyLower_eq_of_not_upper {c : Char} (h : ¬(65 ≤ c.toNat ∧ c.toNat ≤ 90)) :
    pyLower c = c := by
  rw [pyLower, if_neg h]

theorem isPySpace_iff {c : Char} : isPySpace c = true ↔
    (c.toNat = 32 ∨ c.toNat = 9 ∨ c.toNat = 10 ∨ c.toNat = 13 ∨
     c.toNat = 11 ∨ c.toNat = 12) := by
  simp [isPySpace, Bool.or_eq_true, beq_iff_eq]
  tauto

theorem isPySpace_pyLower (c : Char) : isPySpace (pyLower c) = isPySpace c := by
  by_cases h : 65 ≤ c.toNat ∧ c.toNat ≤ 90
  · have hl := toNat_pyLower_of_upper h.1 h.2
    have h1 : isPySpace (pyLower c) = false := by
      rw [← Bool.not_eq_true]
      intro hs
      rw [isPySpace_iff] at hs
      omega
    have h2 : isPySpace c = false := by
      rw [← Bool.not_eq_true]
      intro hs
      rw [isPySpace_iff] at hs
      omega
    rw [h1, h2]
  · rw [pyLower_eq_of_not_upper h]

theorem pyLower_idem (c : Char) : pyLower (pyLower c) = pyLower c := by
  by_cases h : 65 ≤ c.toNat ∧ c.toNat ≤ 90
  · have hl := toNat_pyLower_of_upper h.1 h.2
    apply pyLower_eq_of_not_upper
    omega
  · rw [pyLower_eq_of_not_upper h, pyLower_eq_of_not_upper h]

theorem allowedChar_pyLower {c : Char} (h : allowedChar c = true) :
    allowedChar (pyLower c) = true := by
  by_cases hu : 65 ≤ c.toNat ∧ c.toNat ≤ 90
  · have hl := toNat_pyLower_of_upper hu.1 hu.2
    simp only [allowedChar, isWordChar, Bool.or_eq_true, decide_eq_true_eq, beq_iff_eq]
    omega
  · rwa [pyLower_eq_of_not_upper hu]

theorem pyLower_space : pyLower (Char.ofNat 32) = Char.ofNat 32 := by decide

theorem isPySpace_space : isPySpace (Char.ofNat 32) = true := by decide

theorem allowedChar_space : allowedChar (Char.ofNat 32) = true := by decide

theorem mem_collapseAux {c : Char} : ∀ {b : Bool} {l : List Char},
    c ∈ collapseAux b l → c = ' ' ∨ c ∈ l := by
  intro b l
  induction l generalizing b with
  | nil => intro h; simp [collapseAux] at h
  | cons a cs ih =>
    intro h
    simp only [collapseAux] at h
    by_cases hs : isPySpace a
    · rw [if_pos hs] at h
      cases hb : b with
      | true =>
        rw [hb] at h
        rcases ih h with h' | h'
        · exact Or.inl h'
        · exact Or.inr (List.mem_cons_of_mem a h')
      | false =>
        rw [hb] at h
        rcases List.mem_cons.mp h with h' | h'
        · exact Or.inl h'
        · rcases ih h' with h'' | h''
          · exact Or.inl h''
          · exact Or.inr (List.mem_cons_of_mem a h'')
    · rw [if_neg hs] at h
      rcases List.mem_cons.mp h with h' | h'
      · exact Or.inr (h' ▸ List.mem_cons_self a cs)
      · rcases ih h' with h'' | h''
        · exact Or.inl h''
        · exact Or.inr (List.mem_cons_of_mem a h'')

theorem space_mem_collapseAux {c : Char} : ∀ {b : Bool} {l : List Char},
    c ∈ collapseAux b l → isPySpace c = true → c = ' ' := by
  intro b l
  induction l generalizing b with
  | nil => intro h; simp [collapseAux] at h
  | cons a cs ih =>
    intro h hc
    simp only [collapseAux] at h
    by_cases hs : isPySpace a
    · rw [if_pos hs] at h
      cases hb : b with
      | true => rw [hb] at h; exact ih h hc
      | false =>
        rw [hb] at h
        rcases List.mem_cons.mp h with h' | h'
        · exact h'
        · exact ih h' hc
    · rw [if_neg hs] at h
      rcases List.mem_cons.mp h with h' | h'
      · exact absurd (h' ▸ hc) (by simpa using hs)
      · exact ih h' hc

theorem head_collapseAux_true {l : List Char} {c : Char}
    (h : (collapseAux true l).head? = some c) : isPySpace c = false := by
  induction l with
  | nil => simp [collapseAux] at h
  | cons a cs ih =>
    simp only [collapseAux] at h
    by_cases hs : isPySpace a
    · rw [if_pos hs] at h; exact ih h
    · rw [if_neg hs] at h
      simp only [List.head?_cons, Option.some.injEq] at h
      subst h
      simpa using hs

theorem chain'_collapseAux : ∀ (b : Bool) (l : List Char),
    (collapseAux b l).Chain' NoTwoSpace := by
  intro b l
  induction l generalizing b with
  | nil => simp [collapseAux]
  | cons a cs ih =>
    simp only [collapseAux]
    by_cases hs : isPySpace a
    · rw [if_pos hs]
      cases b with
      | true => exact ih true
      | false =>
        simp only [if_neg, Bool.false_eq_true, not_false_eq_true, ite_false]
        rw [List.chain'_cons']
        refine ⟨?_, ih true⟩
        intro d hd _ hsd
        rw [head_collapseAux_true hd] at hsd
        exact Bool.false_ne_true hsd
    · rw [if_neg hs]
      rw [List.chain'_cons']
      refine ⟨?_, ih false⟩
      intro d _ hsa _
      exact absurd hsa (by simpa using hs)

theorem collapsed_collapseWS (l : List Char) : Collapsed (collapseWS l) :=
  ⟨fun _ hc hs => space_mem_collapseAux hc hs, chain'_collapseAux false l⟩

theorem collapseAux_true_eq_false {l : List Char}
    (h : ∀ c, l.head? = some c → isPySpace c = false) :
    collapseAux true l = collapseAux false l := by
  cases l with
  | nil => rfl
  | cons a cs =>
    have ha := h a rfl
    simp only [collapseAux, ha, Bool.false_eq_true, not_false_eq_true, if_neg]

theorem collapseAux_eq_self {l : List Char} (h : Collapsed l) :
    collapseAux false l = l := by
  induction l with
  | nil => rfl
  | cons a cs ih =>
    obtain ⟨hmem, hchain⟩ := h
    rw [List.chain'_cons'] at hchain
    have hcs : Collapsed cs := ⟨fun c hc => hmem c (List.mem_cons_of_mem a hc), hchain.2⟩
    simp only [collapseAux]
    by_cases hs : isPySpace a
    · rw [if_pos hs]
      have ha : a = ' ' := hmem a (List.mem_cons_self a cs) hs
      have hhead : ∀ c, cs.head? = some c → isPySpace c = false := by
        intro c hc
        by_contra hcontra
        exact hchain.1 c hc hs (by simpa using hcontra)
      rw [collapseAux_true_eq_false hhead, ih hcs, ha]
      simp
    · rw [if_neg hs, ih hcs]

theorem collapseWS_eq_self {l : List Char} (h : Collapsed l) : collapseWS l = l :=
  collapseAux_eq_self h

theorem dropWhile_idem (p : Char → Bool) (l : List Char) :
    (l.dropWhile p).dropWhile p = l.dropWhile p := by
  induction l with
  | nil => rfl
  | cons a cs ih =>
    by_cases h : p a
    · rw [List.dropWhile_cons_of_pos h, ih]
    · rw [List.dropWhile_cons_of_neg (by simpa using h),
        List.dropWhile_cons_of_neg (by simpa using h)]

theorem head_dropWhile_not {p : Char → Bool} {l : List Char} {c : Char}
    (h : (l.dropWhile p).head? = some c) : p c = false := by
  induction l with
  | nil => simp at h
  | cons a cs ih =>
    by_cases ha : p a
    · rw [List.dropWhile_cons_of_pos ha] at h; exact ih h
    · rw [List.dropWhile_cons_of_neg (by simpa using ha)] at h
      simp only [List.head?_cons, Option.some.injEq] at h
      subst h
      simpa using ha

theorem dropWhile_eq_self_of_head {p : Char → Bool} {l : List Char}
    (h : ∀ c, l.head? = some c → p c = false) : l.dropWhile p = l := by
  cases l with
  | nil => rfl
  | cons a cs =>
    have := h a rfl
    rw [List.dropWhile_cons_of_neg (by simp [this])]

theorem mem_of_mem_pyStripList {c : Char} {l : List Char}
    (h : c ∈ pyStripList l) : c ∈ l := by
  unfold pyStripList at h
  rw [List.mem_reverse] at h
  have h1 := (List.dropWhile_suffix isPySpace).subset h
  rw [List.mem_reverse] at h1
  exact (List.dropWhile_suffix isPySpace).subset h1

theorem collapsed_pyStripList {l : List Char} (h : Collapsed l) :
    Collapsed (pyStripList l) := by
  obtain ⟨hmem, hchain⟩ := h
  constructor
  · exact fun c hc => hmem c (mem_of_mem_pyStripList hc)
  · unfold pyStripList
    have h1 : (l.dropWhile isPySpace).Chain' NoTwoSpace :=
      hchain.suffix (List.dropWhile_suffix isPySpace)
    have h2 : (l.dropWhile isPySpace).reverse.Chain' (flip NoTwoSpace) :=
      List.chain'_reverse.mpr (h1.imp fun _ _ hab => hab)
    have h3 : ((l.dropWhile isPySpace).reverse.dropWhile isPySpace).Chain' (flip NoTwoSpace) :=
      h2.suffix (List.dropWhile_suffix isPySpace)
    exact List.chain'_reverse.mpr h3

theorem pyStripList_idem (l : List Char) :
    pyStripList (pyStripList l) = pyStripList l := by
  unfold pyStripList
  set A := l.dropWhile isPySpace with hA
  set B := A.reverse.dropWhile isPySpace with hB
  have hBsuffix : B <:+ A.reverse := List.dropWhile_suffix isPySpace
  have hBrev : B.reverse <+: A := by
    have := List.reverse_prefix.mpr hBsuffix
    rwa [List.reverse_reverse] at this
  have hdrop1 : B.reverse.dropWhile isPySpace = B.reverse := by
    apply dropWhile_eq_self_of_head
    intro c hc
    obtain ⟨t, ht⟩ := hBrev
    have hA_head : A.head? = some c := by
      rw [← ht]
      cases hBr : B.reverse with
      | nil => rw [hBr] at hc; exact absurd hc (by simp)
      | cons x xs =>
        rw [hBr] at hc
        simp only [List.head?_cons, Option.some.injEq] at hc
        rw [hc]
        rfl
    rw [hA] at hA_head
    exact head_dropWhile_not hA_head
  rw [hdrop1, List.reverse_reverse, hB, dropWhile_idem]

theorem pyLower_space' : pyLower ' ' = ' ' := by decide

theorem collapseAux_map_pyLower : ∀ (b : Bool) (l : List Char),
    collapseAux b (l.map pyLower) = (collapseAux b l).map pyLower := by
  intro b l
  induction l generalizing b with
  | nil => rfl
  | cons a cs ih =>
    simp only [List.map_cons, collapseAux, isPySpace_pyLower]
    by_cases hs : isPySpace a
    · rw [if_pos hs, if_pos hs]
      cases b with
      | true => simpa using ih true
      | false =>
        simp only [Bool.false_eq_true, not_false_eq_true, if_neg, List.map_cons]
        rw [ih true, pyLower_space']
    · rw [if_neg hs, if_neg hs, List.map_cons, ih false]

theorem collapseWS_map_pyLower (l : List Char) :
    collapseWS (l.map pyLower) = (collapseWS l).map pyLower :=
  collapseAux_map_pyLower false l

theorem filter_allowed_collapseWS {l : List Char}
    (h : ∀ c ∈ l, allowedChar c = true) :
    (collapseWS l).filter allowedChar = collapseWS l := by
  rw [List.filter_eq_self]
  intro c hc
  rcases mem_collapseAux hc with h' | h'
  · rw [h']
    decide
  · exact h c h'

/--
Amended form of the idempotence of `_normalize_text`: on inputs all of whose
characters lie in the kept whitelist (word characters, whitespace, and the
basic punctuation), normalizing twice equals normalizing once.  (On general
inputs this fails: deleting a non-whitelisted character can merge two
whitespace runs that the first pass had already collapsed.)
-/
theorem normalizeList_idem {l : List Char} (h : ∀ c ∈ l, allowedChar c = true) :
    normalizeList (normalizeList l) = normalizeList l := by
  have hstep : normalizeList l = pyStripList (collapseWS (l.map pyLower)) := by
    unfold normalizeList
    rw [filter_allowed_collapseWS h, ← collapseWS_map_pyLower]
  set s := pyStripList (collapseWS (l.map pyLower)) with hs
  have hcol : Collapsed s := collapsed_pyStripList (collapsed_collapseWS _)
  have hmem_s : ∀ c ∈ s, c = ' ' ∨ ∃ x, c = pyLower x ∧ x ∈ l := by
    intro c hc
    rcases mem_collapseAux (mem_of_mem_pyStripList hc) with h' | h'
    · exact Or.inl h'
    · rcases List.mem_map.mp h' with ⟨x, hx, hxe⟩
      exact Or.inr ⟨x, hxe.symm, hx⟩
  have hallowed_s : ∀ c ∈ s, allowedChar c = true := by
    intro c hc
    rcases hmem_s c hc with h' | ⟨x, hxe, hxl⟩
    · rw [h']; decide
    · rw [hxe]; exact allowedChar_pyLower (h x hxl)
  have hfix_s : ∀ c ∈ s, pyLower c = c := by
    intro c hc
    rcases hmem_s c hc with h' | ⟨x, hxe, _⟩
    · rw [h']; exact pyLower_space'
    · rw [hxe]; exact pyLower_idem x
  rw [hstep]
  unfold normalizeList
  rw [collapseWS_eq_self hcol, List.filter_eq_self.mpr hallowed_s,
    List.map_congr_left hfix_s, List.map_id']
  rw [hs]
  exact pyStripList_idem _

/-- C5, counterexample: `_normalize_text` is not idempotent.  On `"a ! b"` the
first pass deletes `!`, merging the two spaces around it into a double space
that a second pass collapses. -/
theorem normalize_text_not_idempotent :
    normalize_text (normalize_text "a ! b") ≠ normalize_text "a ! b" := by decide

/-- C5, amended: `_normalize_text` is idempotent on every input whose
characters all belong to the kept whitelist (word characters, whitespace and
the punctuation `. , ; : ' " -`); in general, deleting a non-whitelisted
character can merge two already-collapsed whitespace runs, breaking
idempotence. -/
theorem normalize_text_idem_on_whitelisted (s : String)
    (h : s.toList.all allowedChar = true) :
    normalize_text (normalize_text s) = normalize_text s := by
  have hl : ∀ c ∈ s.toList, allowedChar c = true := List.all_eq_true.mp h
  show (normalizeList (normalizeList s.toList)).asString = (normalizeList s.toList).asString
  rw [normalizeList_idem hl]

/-- Witness for `normalize_text_idem_on_whitelisted` at a concrete input. -/
theorem normalize_text_idem_on_whitelisted_witness :
    "The Company,  2024:  risk factors.".toList.all allowedChar = true ∧
    normalize_text (normalize_text "The Company,  2024:  risk factors.") =
      normalize_text "The Company,  2024:  risk factors." :=
  ⟨by decide, normalize_text_idem_on_whitelisted _ (by decide)⟩

theorem length_filterMap_eq_countP {α β : Type} (f : α → Option β) (l : List α) :
    (l.filterMap f).length = l.countP (fun a => (f a).isSome) := by
  induction l with
  | nil => rfl
  | cons a t ih =>
    cases h : f a with
    | none => simp [List.filterMap_cons, h, List.countP_cons, ih]
    | some b => simp [List.filterMap_cons, h, List.countP_cons, ih]

/-- The difference list used inside `analyze_textual_changes` agrees with the
set difference of the corresponding `Finset`s. -/
theorem diff_list_toFinset (xs ys : List String) :
    ((xs.dedup.filter (fun s => decide (s ∉ ys.dedup)))).toFinset
      = xs.toFinset \ ys.toFinset := by
  ext a
  simp [List.mem_filter, List.mem_dedup, Finset.mem_sdiff]

theorem diff_list_nodup (xs ys : List String) :
    ((xs.dedup.filter (fun s => decide (s ∉ ys.dedup)))).Nodup :=
  (List.nodup_dedup xs).filter _

theorem diff_list_length (xs ys : List String) :
    ((xs.dedup.filter (fun s => decide (s ∉ ys.dedup)))).length
      = (xs.toFinset \ ys.toFinset).card := by
  rw [← diff_list_toFinset xs ys, List.toFinset_card_of_nodup (diff_list_nodup xs ys)]

/-- The escalation list has one entry per sentence of the difference set that
contains a risk keyword. -/
theorem escalation_entries_length (xs ys : List String) :
    (escalation_entries (xs.dedup.filter (fun s => decide (s ∉ ys.dedup)))).length
      = ((xs.toFinset \ ys.toFinset).filter
          (fun s => (first_risk_keyword s).isSome = true)).card := by
  unfold escalation_entries
  rw [length_filterMap_eq_countP]
  have h1 : (xs.dedup.filter (fun s => decide (s ∉ ys.dedup))).countP
      (fun a => ((first_risk_keyword a).map
        (fun k => (⟨k, a.take 200⟩ : Escalation))).isSome)
      = (xs.dedup.filter (fun s => decide (s ∉ ys.dedup))).countP
        (fun a => (first_risk_keyword a).isSome) := by
    apply List.countP_congr
    intro s _
    simp [Option.isSome_map']
  rw [h1, List.countP_eq_length_filter]
  have hnd : ((xs.dedup.filter (fun s => decide (s ∉ ys.dedup))).filter
      (fun a => (first_risk_keyword a).isSome)).Nodup :=
    (diff_list_nodup xs ys).filter _
  rw [← List.toFinset_card_of_nodup hnd]
  congr 1
  ext a
  simp only [List.mem_toFinset, List.mem_filter, Finset.mem_filter, Finset.mem_sdiff,
    List.mem_dedup, decide_eq_true_eq]

/-- C6: for all input texts, `added_count + removed_count` equals
`|A \ B| + |B \ A|` over the normalized sentence sets `A` (current) and `B`
(previous), and `risk_score` equals twice the number of added sentences
containing a risk keyword plus the number of removed sentences containing a
risk keyword. -/
theorem analyze_textual_changes_counts_and_risk (ct pt : String) :
    (analyze_textual_changes ct pt).added_count
        + (analyze_textual_changes ct pt).removed_count
      = (sentence_set ct \ sentence_set pt).card
        + (sentence_set pt \ sentence_set ct).card
    ∧ (analyze_textual_changes ct pt).risk_score
      = 2 * ((sentence_set ct \ sentence_set pt).filter
              (fun s => (first_risk_keyword s).isSome = true)).card
        + ((sentence_set pt \ sentence_set ct).filter
              (fun s => (first_risk_keyword s).isSome = true)).card := by
  unfold sentence_set
  constructor
  · show ((split_sentences (normalize_text ct)).dedup.filter
          (fun s => decide (s ∉ (split_sentences (normalize_text pt)).dedup))).length
        + ((split_sentences (normalize_text pt)).dedup.filter
          (fun s => decide (s ∉ (split_sentences (normalize_text ct)).dedup))).length = _
    rw [diff_list_length, diff_list_length]
  · show (escalation_entries ((split_sentences (normalize_text ct)).dedup.filter
          (fun s => decide (s ∉ (split_sentences (normalize_text pt)).dedup)))).length * 2
        + (escalation_entries ((split_sentences (normalize_text pt)).dedup.filter
          (fun s => decide (s ∉ (split_sentences (normalize_text ct)).dedup)))).length = _
    rw [escalation_entries_length, escalation_entries_length]
    omega

set_option maxRecDepth 10000 in
/-- C4, counterexample: when the current text is exactly the example sentence
(which contains both `"substantial doubt"` and `"going concern"`) and the
previous text is empty, the escalation list contains a single entry whose
keyword is `"going concern"` — not `"substantial doubt"` — because
`"going concern"` comes first in `risk_keywords` and the inner loop breaks on
the first keyword in list order. -/
theorem escalation_keyword_not_substantial_doubt :
    (analyze_textual_changes goingConcernSentence "").escalations
      = [⟨"going concern", goingConcernSentence⟩] ∧
    ((analyze_textual_changes goingConcernSentence "").escalations.all
      (fun e => e.keyword != "substantial doubt")) = true := by
  constructor
  · decide
  · decide

set_option maxRecDepth 10000 in
/-- C4, amended: if the current text contains the example sentence and the
previous text does not, the escalation scan flags it with keyword
`"going concern"` (the keyword list is scanned in source order and
`"going concern"` precedes `"substantial doubt"`); in the concrete example
scenario the entry is present in the returned (≤ 10 entry) list. -/
theorem escalation_keyword_is_going_concern (ct pt : String)
    (h1 : goingConcernSentence ∈ sentence_set ct)
    (h2 : goingConcernSentence ∉ sentence_set pt) :
    (⟨"going concern", goingConcernSentence.take 200⟩ : Escalation) ∈
      escalation_entries ((split_sentences (normalize_text ct)).dedup.filter
        (fun s => decide (s ∉ (split_sentences (normalize_text pt)).dedup))) ∧
    (⟨"going concern", goingConcernSentence⟩ : Escalation) ∈
      (analyze_textual_changes goingConcernSentence "").escalations := by
  constructor
  · have hk : first_risk_keyword goingConcernSentence = some "going concern" := by decide
    apply List.mem_filterMap.mpr
    refine ⟨goingConcernSentence, ?_, ?_⟩
    · apply List.mem_filter.mpr
      refine ⟨List.mem_dedup.mpr ?_, ?_⟩
      · exact List.mem_toFinset.mp h1
      · simp only [decide_eq_true_eq, List.mem_dedup]
        intro hc
        exact h2 (List.mem_toFinset.mpr hc)
    · rw [hk]
      rfl
  · decide

/-- C7: with cash history `[70, 100]` (newest first), `analyze_financials`
reports `cash_change_pct = -30.0` and raises no `CASH_BURN_ALERT` (indeed no
alert at all): the `< -30` threshold is strict, so the exact boundary value
does not trigger it. -/
theorem analyze_financials_cash_boundary :
    get_fact_history ((factSetC7.facts.lookup "us-gaap").getD [])
        "CashAndCashEquivalentsAtCarryingValue" 2 = [70, 100] ∧
    analyze_financials (some factSetC7) "0000320193" = .ok auditC7 := by
  constructor
  · with_unfolding_all decide
  · with_unfolding_all decide

/-- C8: with `AssetsCurrent = 80` and `LiabilitiesCurrent = 100`,
`analyze_financials` reports `liquidity_ratio = 0.8`, a single
HIGH-severity `LIQUIDITY_ALERT`, and `health_score = 7`; and in general
`health_score = 10 - 3 * |alerts|`, not clamped below. -/
theorem analyze_financials_liquidity_and_health :
    analyze_financials (some factSetC8) "0000320193" = .ok auditC8 ∧
    ∀ (cf : Option CompanyFacts) (cik : String),
      health_invariant (analyze_financials cf cik) := by
  constructor
  · with_unfolding_all decide
  · intro cf cik
    cases cf with
    | none => trivial
    | some c =>
      simp only [analyze_financials, health_invariant]
      omega

/-- C10: with a falsy (empty) current-holdings list, `analyze_whale_changes`
returns the error dictionary and performs no delta computation; with at least
one current holding it always returns the stats dictionary. -/
theorem analyze_whale_changes_empty_current :
    (∀ prev : List Holding,
      analyze_whale_changes [] prev = .error "No current holdings data") ∧
    (∀ (h : Holding) (rest prev : List Holding),
      (analyze_whale_changes (h :: rest) prev).isOk = true) := by
  constructor
  · intro prev
    rfl
  · intro h rest prev
    rfl

theorem mem_of_lookup {l : List (String × String)} {k v : String}
    (h : l.lookup k = some v) : (k, v) ∈ l := by
  rcases List.lookup_eq_some_iff.mp h with ⟨l₁, l₂, rfl, -⟩
  simp

theorem length_zfill (width : Nat) (s : String) (h : s.length ≤ width) :
    (zfill width s).length = width := by
  unfold zfill
  rw [String.length_append]
  have h1 : (List.replicate (width - s.length) '0').asString.length
      = width - s.length := by
    show (List.replicate (width - s.length) '0').length = _
    rw [List.length_replicate]
  omega

theorem CIK_MAP_values_short : ∀ p ∈ CIK_MAP, p.2.length ≤ 10 := by decide

/-- C9: whenever the normalized ticker is a key of the curated `CIK_MAP`,
`get_cik` returns the mapped identifier zero-padded to exactly 10 characters,
for every possible outcome of the remote directory fetch (the network is
never consulted). -/
theorem get_cik_curated (ticker c : String) (directory : Option (List TickerEntry))
    (h : CIK_MAP.lookup (normalize_ticker ticker) = some c) :
    get_cik directory ticker = some (zfill 10 c) ∧ (zfill 10 c).length = 10 := by
  constructor
  · simp only [get_cik, h]
  · exact length_zfill 10 c (CIK_MAP_values_short _ (mem_of_lookup h))

/-- Witness for `get_cik_curated`: `brk.b ` normalizes to the curated key
`BRK-B`, and the adversarial directory mapping `BRK-B` elsewhere is
ignored. -/
theorem get_cik_curated_witness :
    CIK_MAP.lookup (normalize_ticker "brk.b ") = some "1067983" ∧
    (get_cik (some [⟨"BRK-B", "999"⟩]) "brk.b " = some (zfill 10 "1067983") ∧
      (zfill 10 "1067983").length = 10) :=
  ⟨by decide, get_cik_curated "brk.b " "1067983" (some [⟨"BRK-B", "999"⟩]) (by decide)⟩

/-- Case analysis of the `get_filings` cascade: each strategy's result is
returned exactly when all earlier strategies yield nothing. -/
theorem get_filings_cascade_cases (env : LocateEnv) (cik form_type : String)
    (count : Nat) (ticker : Option String) :
    (∀ r, local_filings_lookup env.localFilings form_type count ticker = some r →
      get_filings env cik form_type count ticker = r) ∧
    (local_filings_lookup env.localFilings form_type count ticker = none →
      (env.htmlFilings ≠ [] →
        get_filings env cik form_type count ticker = env.htmlFilings) ∧
      (env.htmlFilings = [] → env.rssFilings ≠ [] →
        get_filings env cik form_type count ticker = env.rssFilings) ∧
      (env.htmlFilings = [] → env.rssFilings = [] →
        ∀ subs, env.submissions = some subs →
          build_submissions_filings subs cik form_type count ≠ [] →
          get_filings env cik form_type count ticker
            = build_submissions_filings subs cik form_type count) ∧
      (env.htmlFilings = [] → env.rssFilings = [] →
        (env.submissions = none ∨
          ∃ subs, env.submissions = some subs ∧
            build_submissions_filings subs cik form_type count = []) →
        get_filings env cik form_type count ticker
          = get_demo_filings cik form_type count)) := by
  constructor
  · intro r hr
    simp only [get_filings, hr]
  · intro hnone
    refine ⟨?_, ?_, ?_, ?_⟩
    · intro hh
      simp only [get_filings, hnone]
      rw [if_pos (by simpa using hh)]
    · intro hh hr
      simp only [get_filings, hnone, hh]
      rw [if_neg (by simp), if_pos (by simpa using hr)]
    · intro hh hr subs hsubs hbuild
      simp only [get_filings, hnone, hh, hr, hsubs]
      rw [if_neg (by simp), if_neg (by simp), if_pos (by simpa using hbuild)]
    · intro hh hr hsubs
      rcases hsubs with hsubs | ⟨subs, hsubs, hbuild⟩
      · simp only [get_filings, hnone, hh, hr, hsubs]
        rw [if_neg (by simp), if_neg (by simp)]
      · simp only [get_filings, hnone, hh, hr, hsubs]
        rw [if_neg (by simp), if_neg (by simp), if_neg (by simp [hbuild])]

/-- C1: the discovery cascade of `get_filings` tries, in order: the
cached/local lookup (only when a ticker hint is supplied), the directory-page
(HTML) strategy, the feed (RSS) strategy, the submissions-API strategy, and
the placeholder strategy, returning the result of the first that yields at
least one descriptor. -/
theorem get_filings_cascade (env : LocateEnv) (cik form_type : String)
    (count : Nat) (ticker : Option String) :
    (∀ r, local_filings_lookup env.localFilings form_type count ticker = some r →
      get_filings env cik form_type count ticker = r) ∧
    (local_filings_lookup env.localFilings form_type count ticker = none →
      (env.htmlFilings ≠ [] →
        get_filings env cik form_type count ticker = env.htmlFilings) ∧
      (env.htmlFilings = [] → env.rssFilings ≠ [] →
        get_filings env cik form_type count ticker = env.rssFilings) ∧
      (env.htmlFilings = [] → env.rssFilings = [] →
        ∀ subs, env.submissions = some subs →
          build_submissions_filings subs cik form_type count ≠ [] →
          get_filings env cik form_type count ticker
            = build_submissions_filings subs cik form_type count) ∧
      (env.htmlFilings = [] → env.rssFilings = [] →
        (env.submissions = none ∨
          ∃ subs, env.submissions = some subs ∧
            build_submissions_filings subs cik form_type count = []) →
        get_filings env cik form_type count ticker
          = get_demo_filings cik form_type count)) :=
  get_filings_cascade_cases env cik form_type count ticker

/-- Witness for `get_filings_cascade`: forcing each strategy in turn to fail
selects the next one. -/
theorem get_filings_cascade_witness :
    get_filings envLocal "320193" "10-K" 2 (some "AAPL") = [fLocal] ∧
    get_filings envHtml "320193" "10-K" 2 (some "AAPL") = [fHtml] ∧
    get_filings envRss "320193" "10-K" 2 none = [fRss] ∧
    get_filings envSubs "320193" "10-K" 2 none
      = build_submissions_filings [sampleSub] "320193" "10-K" 2 ∧
    get_filings envFail "320193" "10-K" 2 none
      = get_demo_filings "320193" "10-K" 2 :=
  ⟨(get_filings_cascade envLocal "320193" "10-K" 2 (some "AAPL")).1 [fLocal] (by decide),
   ((get_filings_cascade envHtml "320193" "10-K" 2 (some "AAPL")).2 (by decide)).1
     (by decide),
   ((get_filings_cascade envRss "320193" "10-K" 2 none).2 rfl).2.1 rfl (by decide),
   (((get_filings_cascade envSubs "320193" "10-K" 2 none).2 rfl).2.2.1 rfl rfl
     [sampleSub] rfl (by decide)),
   (((get_filings_cascade envFail "320193" "10-K" 2 none).2 rfl).2.2.2 rfl rfl
     (Or.inl rfl))⟩

/-- C2, counterexample: with every earlier strategy failing and form type
`8-K`, the placeholder strategy returns the empty list — `get_filings` can
return an empty list, and produces placeholders only for `10-K`/`10-Q`. -/
theorem get_filings_empty_for_8K :
    get_filings envFail "0000320193" "8-K" 2 none = [] := by decide

/-- C2, amended: when every earlier strategy yields zero results,
`get_filings` returns `_get_demo_filings`, which for form types `10-K` and
`10-Q` is the fixed 2-element placeholder list truncated to `count` (exactly
2 descriptors when `2 ≤ count`), every returned descriptor carrying the
sentinel url and folder url `"DEMO"`; for any other form type it is the
empty list, so the locator can return an empty list. -/
theorem get_filings_placeholder (env : LocateEnv) (cik form_type : String)
    (count : Nat) (ticker : Option String)
    (h0 : local_filings_lookup env.localFilings form_type count ticker = none)
    (h1 : env.htmlFilings = []) (h2 : env.rssFilings = [])
    (h3 : match env.submissions with
          | some subs => build_submissions_filings subs cik form_type count = []
          | none => True) :
    get_filings env cik form_type count ticker = get_demo_filings cik form_type count ∧
    ((form_type = "10-K" ∨ form_type = "10-Q") →
      get_filings env cik form_type count ticker = (demo_filing_pair form_type).take count ∧
      (2 ≤ count → (get_filings env cik form_type count ticker).length = 2) ∧
      ∀ f ∈ get_filings env cik form_type count ticker,
        f.url = "DEMO" ∧ f.folder_url = "DEMO") ∧
    (form_type ≠ "10-K" → form_type ≠ "10-Q" →
      get_filings env cik form_type count ticker = []) := by
  have hdemo : get_filings env cik form_type count ticker
      = get_demo_filings cik form_type count := by
    cases hs : env.submissions with
    | none =>
      exact ((get_filings_cascade_cases env cik form_type count ticker).2 h0).2.2.2 h1 h2
        (Or.inl hs)
    | some subs =>
      rw [hs] at h3
      exact ((get_filings_cascade_cases env cik form_type count ticker).2 h0).2.2.2 h1 h2
        (Or.inr ⟨subs, hs, h3⟩)
  refine ⟨hdemo, ?_, ?_⟩
  · intro hform
    have hcond : (form_type == "10-K" || form_type == "10-Q") = true := by
      rcases hform with h | h <;> simp [h]
    have hd : get_demo_filings cik form_type count
        = (demo_filing_pair form_type).take count := by
      unfold get_demo_filings
      rw [if_pos hcond]
    refine ⟨hdemo.trans hd, ?_, ?_⟩
    · intro hc
      rw [hdemo, hd, List.length_take]
      simp [demo_filing_pair]
      omega
    · intro f hf
      rw [hdemo, hd] at hf
      have hf' : f ∈ demo_filing_pair form_type := List.mem_of_mem_take hf
      simp only [demo_filing_pair, List.mem_cons, List.mem_singleton] at hf'
      rcases hf' with rfl | rfl | h
      · exact ⟨rfl, rfl⟩
      · exact ⟨rfl, rfl⟩
      · cases h
  · intro hK hQ
    have hcond : (form_type == "10-K" || form_type == "10-Q") = false := by
      simp [hK, hQ]
    rw [hdemo]
    unfold get_demo_filings
    rw [if_neg (by simp [hcond, hK, hQ])]

/-- Witness for `get_filings_placeholder`: all strategies fail; `10-K` yields
the two `DEMO` placeholders, `13-F` yields the empty list. -/
theorem get_filings_placeholder_witness :
    get_filings envFail "0000320193" "10-K" 2 none
      = (demo_filing_pair "10-K").take 2 ∧
    get_filings envFail "0000320193" "13-F" 2 none = [] :=
  ⟨((get_filings_placeholder envFail "0000320193" "10-K" 2 none rfl rfl rfl
      trivial).2.1 (Or.inl rfl)).1,
   (get_filings_placeholder envFail "0000320193" "13-F" 2 none rfl rfl rfl
      trivial).2.2 (by decide) (by decide)⟩

theorem matchLit_suffix (k : List Char) : SuffixStep (matchLit k) := by
  induction k with
  | nil =>
    intro l r h
    simp only [matchLit, Option.some.injEq] at h
    exact h ▸ List.suffix_refl l
  | cons a ks ih =>
    intro l r h
    cases l with
    | nil => simp [matchLit] at h
    | cons c cs =>
      simp only [matchLit] at h
      by_cases hc : pyLower c = pyLower a
      · rw [if_pos hc] at h
        exact (ih h).trans (List.suffix_cons c cs)
      · rw [if_neg hc] at h
        cases h

theorem munch1_suffix (p : Char → Bool) : SuffixStep (munch1 p) := by
  intro l r h
  cases l with
  | nil => simp [munch1] at h
  | cons c cs =>
    simp only [munch1] at h
    by_cases hc : p c
    · rw [if_pos hc] at h
      injection h with h
      exact h ▸ (List.dropWhile_suffix p).trans (List.suffix_cons c cs)
    · rw [if_neg (by simpa using hc)] at h
      cases h

theorem matchHeader1_suffix : SuffixStep matchHeader1 := by
  intro l r h
  unfold matchHeader1 at h
  rcases Option.bind_eq_some.mp h with ⟨r6, h6, hG⟩
  rcases Option.bind_eq_some.mp h6 with ⟨r5, h5, hF⟩
  rcases Option.bind_eq_some.mp h5 with ⟨r4, h4, hE⟩
  rcases Option.bind_eq_some.mp h4 with ⟨r3, h3, hD⟩
  rcases Option.bind_eq_some.mp h3 with ⟨r2, h2, hC⟩
  rcases Option.bind_eq_some.mp h2 with ⟨r1, h1, hB⟩
  exact ((((((matchLit_suffix _ hG).trans (munch1_suffix _ hF)).trans
    (matchLit_suffix _ hE)).trans (munch1_suffix _ hD)).trans
    (matchLit_suffix _ hC)).trans (munch1_suffix _ hB)).trans (matchLit_suffix _ h1)

theorem matchHeader2_suffix : SuffixStep matchHeader2 := by
  intro l r h
  unfold matchHeader2 at h
  rcases Option.bind_eq_some.mp h with ⟨r2, h2, hC⟩
  rcases Option.bind_eq_some.mp h2 with ⟨r1, h1, hB⟩
  exact ((matchLit_suffix _ hC).trans (munch1_suffix _ hB)).trans (matchLit_suffix _ h1)

theorem capturePre_isPre (term : List Char → Bool) :
    ∀ {l g : List Char}, capturePre term l = some g → g <+: l := by
  intro l
  induction l with
  | nil =>
    intro g h
    simp only [capturePre] at h
    split at h
    · injection h with h
      exact h ▸ List.nil_prefix
    · cases h
  | cons c cs ih =>
    intro g h
    simp only [capturePre] at h
    split at h
    · injection h with h
      exact h ▸ List.nil_prefix
    · rcases Option.map_eq_some'.mp h with ⟨g', hg', rfl⟩
      obtain ⟨t, rfl⟩ := ih hg'
      exact ⟨t, rfl⟩

theorem searchSection_isInfix {header : List Char → Option (List Char)}
    {term : List Char → Bool} (hh : SuffixStep header) :
    ∀ {l g : List Char}, searchSection header term l = some g → g <:+: l := by
  intro l
  induction l with
  | nil => intro g h; simp [searchSection] at h
  | cons c cs ih =>
    intro g h
    simp only [searchSection] at h
    cases hhd : header (c :: cs) with
    | some rest =>
      rw [hhd] at h
      dsimp only at h
      cases hcap : capturePre term rest with
      | some grp =>
        rw [hcap] at h
        dsimp only at h
        injection h with h
        subst h
        exact ((capturePre_isPre term hcap).isInfix).trans (hh hhd).isInfix
      | none =>
        rw [hcap] at h
        dsimp only at h
        exact (ih h).trans (List.suffix_cons c cs).isInfix
    | none =>
      rw [hhd] at h
      dsimp only at h
      exact (ih h).trans (List.suffix_cons c cs).isInfix

theorem section_capture_spec {header : List Char → Option (List Char)}
    {term : List Char → Bool} {minLen : Nat} {text g : List Char}
    (hh : SuffixStep header)
    (h : section_capture header term minLen text = some g) :
    g <:+: text ∧ minLen < g.length := by
  unfold section_capture at h
  cases hs : searchSection header term text with
  | some g' =>
    rw [hs] at h
    dsimp only at h
    by_cases hl : minLen < g'.length
    · rw [if_pos hl] at h
      injection h with h
      subst h
      exact ⟨searchSection_isInfix hh hs, hl⟩
    · rw [if_neg hl] at h
      cases h
  | none =>
    rw [hs] at h
    dsimp only at h
    cases h

theorem exists_not_space_of_chain {l : List Char}
    (hc : l.Chain' NoTwoSpace) (hl : 2 ≤ l.length) :
    ∃ c ∈ l, isPySpace c = false := by
  match l, hl with
  | a :: b :: t, _ =>
    rw [List.chain'_cons'] at hc
    by_cases ha : isPySpace a
    · refine ⟨b, by simp, ?_⟩
      by_contra hb
      exact hc.1 b rfl ha (by simpa using hb)
    · exact ⟨a, by simp, by simpa using ha⟩

theorem mem_dropWhile_of_not_p {p : Char → Bool} {c : Char} :
    ∀ {l : List Char}, c ∈ l → p c = false → c ∈ l.dropWhile p := by
  intro l
  induction l with
  | nil => intro h _; cases h
  | cons a t ih =>
    intro hmem hpc
    by_cases ha : p a
    · rw [List.dropWhile_cons_of_pos ha]
      rcases List.mem_cons.mp hmem with rfl | h'
      · simp [hpc] at ha
      · exact ih h' hpc
    · rw [List.dropWhile_cons_of_neg (by simpa using ha)]
      exact hmem

theorem mem_pyStripList_of_not_space {c : Char} {l : List Char}
    (hmem : c ∈ l) (hs : isPySpace c = false) : c ∈ pyStripList l := by
  unfold pyStripList
  rw [List.mem_reverse]
  exact mem_dropWhile_of_not_p
    (List.mem_reverse.mpr (mem_dropWhile_of_not_p hmem hs)) hs

theorem collapseWS_ne_nil {l : List Char} (h : l ≠ []) : collapseWS l ≠ [] := by
  cases l with
  | nil => exact absurd rfl h
  | cons c cs =>
    unfold collapseWS collapseAux
    by_cases hs : isPySpace c
    · rw [if_pos hs]
      simp
    · rw [if_neg hs]
      simp

theorem take_ne_nil' {l : List Char} {n : Nat} (hl : l ≠ []) (hn : 0 < n) :
    l.take n ≠ [] := by
  cases l with
  | nil => exact absurd rfl hl
  | cons c cs =>
    cases n with
    | zero => omega
    | succ m => simp

theorem findSub_lt {needle : List Char} (hne : needle ≠ []) :
    ∀ {hay : List Char} {i : Nat}, findSub needle hay = some i → i < hay.length := by
  intro hay
  induction hay with
  | nil =>
    intro i h
    simp only [findSub] at h
    rw [if_neg (by simpa [List.isEmpty_iff] using hne)] at h
    cases h
  | cons c t ih =>
    intro i h
    simp only [findSub] at h
    by_cases hs : startsWithL needle (c :: t)
    · rw [if_pos hs] at h
      injection h with h
      subst h
      simp
    · rw [if_neg (by simpa using hs)] at h
      rcases Option.map_eq_some'.mp h with ⟨j, hj, rfl⟩
      have := ih hj
      simp only [List.length_cons]
      omega

theorem extract_item_1a_list_spec (text : List Char)
    (hchain : text.Chain' NoTwoSpace) :
    (text ≠ [] → extract_item_1a_list text ≠ []) ∧
    (extract_item_1a_list text).length ≤ 25000 := by
  have hpattern : ∀ g : List Char, g <:+: text → 500 < g.length →
      (pyStripList g).take 25000 ≠ [] ∧
      ((pyStripList g).take 25000).length ≤ 25000 := by
    intro g hg hlen
    have hchg : g.Chain' NoTwoSpace := hchain.infix hg
    obtain ⟨c, hcm, hcs⟩ := exists_not_space_of_chain hchg (by omega)
    have hne : pyStripList g ≠ [] :=
      List.ne_nil_of_mem (mem_pyStripList_of_not_space hcm hcs)
    exact ⟨take_ne_nil' hne (by omega), List.length_take_le _ _⟩
  unfold extract_item_1a_list
  cases h1 : section_capture matchHeader1 isTerm1At 500 text with
  | some g =>
    dsimp only
    obtain ⟨hg, hlen⟩ := section_capture_spec matchHeader1_suffix h1
    exact ⟨fun _ => (hpattern g hg hlen).1, (hpattern g hg hlen).2⟩
  | none =>
    cases h2 : section_capture matchHeader2 isTerm2At 500 text with
    | some g =>
      dsimp only
      obtain ⟨hg, hlen⟩ := section_capture_spec matchHeader2_suffix h2
      exact ⟨fun _ => (hpattern g hg hlen).1, (hpattern g hg hlen).2⟩
    | none =>
      cases h3 : findSub "risk factors".toList (text.map pyLower) with
      | some idx =>
        dsimp only
        by_cases hidx : 0 < idx
        · rw [if_pos hidx]
          have hlt : idx < text.length := by
            have := findSub_lt (by decide) h3
            simpa using this
          constructor
          · intro _
            apply take_ne_nil' _ (by omega)
            intro hdrop
            rw [List.drop_eq_nil_iff] at hdrop
            omega
          · exact List.length_take_le _ _
        · rw [if_neg hidx]
          exact ⟨fun ht => take_ne_nil' ht (by omega),
            le_trans (List.length_take_le _ _) (by omega)⟩
      | none =>
        dsimp only
        exact ⟨fun ht => take_ne_nil' ht (by omega),
          le_trans (List.length_take_le _ _) (by omega)⟩

/-- C3, counterexample: the single-space document is a non-empty input string
whose tag-stripped text is empty, and `extract_item_1a` returns the empty
string on it. -/
theorem extract_item_1a_empty_on_whitespace :
    (" " : String) ≠ "" ∧ extract_item_1a " " = "" := by
  constructor
  · decide
  · decide

/-- C3, amended: `extract_item_1a` always returns at most 25000 characters,
and returns a non-empty string whenever the markup-stripped text of the
document is non-empty; for documents whose markup-stripped text is empty
(whitespace-only or markup-only documents) it returns the empty string. -/
theorem extract_item_1a_bounds (html : String)
    (h : get_text_model html.toList ≠ []) :
    extract_item_1a html ≠ "" ∧ (extract_item_1a html).length ≤ 25000 := by
  have hsp := extract_item_1a_list_spec (collapseWS (get_text_model html.toList))
    (chain'_collapseAux false _)
  have hne := hsp.1 (collapseWS_ne_nil h)
  constructor
  · intro hcontra
    exact hne (congrArg String.toList hcontra)
  · exact hsp.2

/-- Witness for `extract_item_1a_bounds` at a concrete document. -/
theorem extract_item_1a_bounds_witness :
    get_text_model "just a short document".toList ≠ [] ∧
    (extract_item_1a "just a short document" ≠ "" ∧
      (extract_item_1a "just a short document").length ≤ 25000) :=
  ⟨by decide, extract_item_1a_bounds "just a short document" (by decide)⟩

set_option maxRecDepth 10000 in
/-- Witness for `escalation_keyword_is_going_concern` at the spec's concrete
example. -/
theorem escalation_keyword_is_going_concern_witness :
    goingConcernSentence ∈ sentence_set goingConcernSentence ∧
    goingConcernSentence ∉ sentence_set "" ∧
    ((⟨"going concern", goingConcernSentence.take 200⟩ : Escalation) ∈
      escalation_entries ((split_sentences (normalize_text goingConcernSentence)).dedup.filter
        (fun s => decide (s ∉ (split_sentences (normalize_text "")).dedup))) ∧
    (⟨"going concern", goingConcernSentence⟩ : Escalation) ∈
      (analyze_textual_changes goingConcernSentence "").escalations) :=
  ⟨by decide, by decide,
    escalation_keyword_is_going_concern goingConcernSentence "" (by decide) (by decide)⟩

end JIB

